import Mathlib

/-!
Shallow embedding of the Polymarket whale-tracking core
(`news-aggregator.js` class `PolymarketAPI` and `polymarket-trackers.js`
class `PolymarketTrackerSystem`).

Decimal quantities (USDC sizes, prices, sub-scores) are modelled by `ℚ`,
timestamps and integer scores by `ℤ`, JS `Map`s by association lists over
`String` keys, and nullable values by `Option`.
-/

/-- JS `Math.round` on a rational: round half toward positive infinity. -/
def jsRound (x : ℚ) : ℤ := ⌊x + 1/2⌋

/-! ### Association-list model of a JS `Map` (insertion order preserved) -/

/-- `Map.get k`: first binding of `k`, if any. -/
def mapGet {α : Type} (m : List (String × α)) (k : String) : Option α :=
  (m.find? (fun p => p.1 == k)).map (fun p => p.2)

/-- `Map.set k v`: overwrite in place if `k` is bound, else append. -/
def mapSet {α : Type} (m : List (String × α)) (k : String) (v : α) : List (String × α) :=
  if m.any (fun p => p.1 == k) then
    m.map (fun p => if p.1 == k then (k, v) else p)
  else m ++ [(k, v)]

/-- `Map.delete k`: remove every binding of `k`. -/
def mapDel {α : Type} (m : List (String × α)) (k : String) : List (String × α) :=
  m.filter (fun p => p.1 != k)

/-! ### Data fetched by the Market Data Client -/

/-- One item of a wallet's activity history (`data-api /activity?user=`).
`usdcSize` is absent-or-decimal: the code reads `parseFloat(t.usdcSize || 0)`. -/
structure HistItem where
  type : String
  usdcSize : Option ℚ
  conditionId : String
deriving DecidableEq, Repr

/-- The `market` sub-object of a position (`p.market?.closed`,
`p.market?.condition_id`). -/
structure PosMarket where
  closed : Bool
  condition_id : String
deriving DecidableEq, Repr

/-- A wallet position (`data-api /positions?user=`). -/
structure Position where
  market : Option PosMarket
  cashPnl : Option ℚ
deriving DecidableEq, Repr

/-! ### Whale scorer (`calculateWhaleScore`, news-aggregator.js 518-603) -/

/-- `history.filter(t => t.type === 'TRADE')`. -/
def tradesOf (history : List HistItem) : List HistItem :=
  history.filter (fun t => t.type == "TRADE")

/-- `p.cashPnl && parseFloat(p.cashPnl) > 0`. -/
def isWinning (p : Position) : Bool :=
  match p.cashPnl with
  | some v => decide (0 < v)
  | none => false

/-- `positions?.filter(p => p.market?.closed) || []`. -/
def resolvedPositions (positions : Option (List Position)) : List Position :=
  (positions.getD []).filter (fun p => (p.market.map (fun m => m.closed)).getD false)

/-- Win-rate component: fraction of resolved positions with positive
realized PnL, times 100; defaults to 50 when no position is resolved. -/
def winRate (positions : Option (List Position)) : ℚ :=
  let resolved := resolvedPositions positions
  let winning := resolved.filter isWinning
  if 0 < resolved.length then (winning.length : ℚ) / (resolved.length : ℚ) * 100 else 50

/-- `trades.reduce((sum, t) => sum + parseFloat(t.usdcSize || 0), 0)`. -/
def totalVolumeOf (trades : List HistItem) : ℚ :=
  trades.foldl (fun s t => s + t.usdcSize.getD 0) 0

/-- `Math.min(100, avgBetSize / 20000 * 100)`. -/
def betSizeScore (avgBetSize : ℚ) : ℚ := min 100 (avgBetSize / 20000 * 100)

/-- `Math.min(100, totalVolume / 500000 * 100)`. -/
def volumeScore (totalVolume : ℚ) : ℚ := min 100 (totalVolume / 500000 * 100)

/-- `Math.min(100, totalTrades / 50 * 100)`. -/
def frequencyScore (totalTrades : ℕ) : ℚ := min 100 ((totalTrades : ℚ) / 50 * 100)

/-- First position whose market's `condition_id` equals the trade's
`conditionId` (`positions?.filter(...)[0]`, possibly `undefined`). -/
def firstMatchedPosition (positions : Option (List Position)) (t : HistItem) : Option Position :=
  ((positions.getD []).filter (fun p =>
    match p.market with
    | some m => m.condition_id == t.conditionId
    | none => false)).head?

/-- `recentTrades.map(trade => marketPositions[0])` over the 10 most-recent
trades: one entry per trade, `none` when that trade matched no position. -/
def recentPositionsOf (trades : List HistItem) (positions : Option (List Position)) :
    List (Option Position) :=
  (trades.take 10).map (firstMatchedPosition positions)

/-- Count of recent entries that are present and winning
(`recentPositions.filter(p => p && p.cashPnl && parseFloat(p.cashPnl) > 0).length`). -/
def recentWinsOf (trades : List HistItem) (positions : Option (List Position)) : ℕ :=
  ((recentPositionsOf trades positions).filter (fun op =>
    match op with
    | some p => isWinning p
    | none => false)).length

/-- Recent-performance component over the 10 most-recent trades. -/
def recentPerformance (trades : List HistItem) (positions : Option (List Position)) : ℚ :=
  let rp := recentPositionsOf trades positions
  if 0 < rp.length then (recentWinsOf trades positions : ℚ) / (rp.length : ℚ) * 100 else 50

/-- The weighted sum of the five sub-scores, before rounding. -/
def rawScore (trades : List HistItem) (positions : Option (List Position)) : ℚ :=
  winRate positions * 0.4 +
  betSizeScore (totalVolumeOf trades / (trades.length : ℚ)) * 0.2 +
  volumeScore (totalVolumeOf trades) * 0.2 +
  frequencyScore trades.length * 0.1 +
  recentPerformance trades positions * 0.1

/-- `calculateWhaleScore`, cache aside: `0` for null/empty history or no
TRADE entries, else the rounded weighted sum. -/
def calculateWhaleScore (history : Option (List HistItem))
    (positions : Option (List Position)) : ℤ :=
  match history with
  | none => 0
  | some h =>
    if h.length = 0 then 0
    else
      let trades := tradesOf h
      if trades.length = 0 then 0
      else jsRound (rawScore trades positions)

/-! ### Bounds on the sub-scores -/

theorem winRate_nonneg (positions : Option (List Position)) : 0 ≤ winRate positions := by
  unfold winRate
  dsimp only
  split
  · positivity
  · norm_num

theorem winRate_le (positions : Option (List Position)) : winRate positions ≤ 100 := by
  unfold winRate
  dsimp only
  split
  · rename_i hpos
    have hle : ((resolvedPositions positions).filter isWinning).length ≤
        (resolvedPositions positions).length := List.length_filter_le _ _
    have hden : (0 : ℚ) < ((resolvedPositions positions).length : ℚ) := by
      exact_mod_cast hpos
    have h1 : (((resolvedPositions positions).filter isWinning).length : ℚ) /
        ((resolvedPositions positions).length : ℚ) ≤ 1 := by
      rw [div_le_one hden]
      exact_mod_cast hle
    linarith
  · norm_num

theorem betSizeScore_le (x : ℚ) : betSizeScore x ≤ 100 := min_le_left _ _

theorem betSizeScore_nonneg (x : ℚ) (hx : 0 ≤ x) : 0 ≤ betSizeScore x := by
  unfold betSizeScore
  have : (0 : ℚ) ≤ x / 20000 * 100 := by positivity
  exact le_min (by norm_num) this

theorem volumeScore_le (x : ℚ) : volumeScore x ≤ 100 := min_le_left _ _

theorem volumeScore_nonneg (x : ℚ) (hx : 0 ≤ x) : 0 ≤ volumeScore x := by
  unfold volumeScore
  have : (0 : ℚ) ≤ x / 500000 * 100 := by positivity
  exact le_min (by norm_num) this

theorem frequencyScore_le (n : ℕ) : frequencyScore n ≤ 100 := min_le_left _ _

theorem frequencyScore_nonneg (n : ℕ) : 0 ≤ frequencyScore n := by
  unfold frequencyScore
  have : (0 : ℚ) ≤ (n : ℚ) / 50 * 100 := by positivity
  exact le_min (by norm_num) this

theorem recentPerformance_nonneg (trades : List HistItem)
    (positions : Option (List Position)) : 0 ≤ recentPerformance trades positions := by
  unfold recentPerformance
  dsimp only
  split
  · positivity
  · norm_num

theorem recentPerformance_le (trades : List HistItem)
    (positions : Option (List Position)) : recentPerformance trades positions ≤ 100 := by
  unfold recentPerformance
  dsimp only
  split
  · rename_i hpos
    have hle : recentWinsOf trades positions ≤ (recentPositionsOf trades positions).length :=
      List.length_filter_le _ _
    have hden : (0 : ℚ) < ((recentPositionsOf trades positions).length : ℚ) := by
      exact_mod_cast hpos
    have h1 : ((recentWinsOf trades positions : ℚ)) /
        ((recentPositionsOf trades positions).length : ℚ) ≤ 1 := by
      rw [div_le_one hden]
      exact_mod_cast hle
    linarith
  · norm_num

theorem totalVolumeOf_nonneg (trades : List HistItem)
    (h : ∀ t ∈ trades, ∀ v, t.usdcSize = some v → 0 ≤ v) : 0 ≤ totalVolumeOf trades := by
  unfold totalVolumeOf
  have key : ∀ (l : List HistItem) (a : ℚ), (∀ t ∈ l, ∀ v, t.usdcSize = some v → 0 ≤ v) →
      0 ≤ a → 0 ≤ l.foldl (fun s t => s + t.usdcSize.getD 0) a := by
    intro l
    induction l with
    | nil => intro a _ ha; simpa using ha
    | cons t ts ih =>
      intro a hl ha
      simp only [List.foldl_cons]
      apply ih
      · intro u hu v hv
        exact hl u (List.mem_cons_of_mem _ hu) v hv
      · have : 0 ≤ t.usdcSize.getD 0 := by
          cases hs : t.usdcSize with
          | none => simp
          | some v =>
            simpa using hl t (List.mem_cons_self _ _) v hs
        linarith
  exact key trades 0 h le_rfl

theorem rawScore_bounds (trades : List HistItem) (positions : Option (List Position))
    (hvol : 0 ≤ totalVolumeOf trades) :
    0 ≤ rawScore trades positions ∧ rawScore trades positions ≤ 100 := by
  have havg : (0 : ℚ) ≤ totalVolumeOf trades / (trades.length : ℚ) := by positivity
  have h1 := winRate_nonneg positions
  have h2 := winRate_le positions
  have h3 := betSizeScore_nonneg _ havg
  have h4 := betSizeScore_le (totalVolumeOf trades / (trades.length : ℚ))
  have h5 := volumeScore_nonneg _ hvol
  have h6 := volumeScore_le (totalVolumeOf trades)
  have h7 := frequencyScore_nonneg trades.length
  have h8 := frequencyScore_le trades.length
  have h9 := recentPerformance_nonneg trades positions
  have h10 := recentPerformance_le trades positions
  unfold rawScore
  norm_num
  constructor <;> nlinarith

theorem jsRound_bounds (x : ℚ) (h0 : 0 ≤ x) (h1 : x ≤ 100) :
    0 ≤ jsRound x ∧ jsRound x ≤ 100 := by
  constructor
  · exact Int.le_floor.mpr (by push_cast; linarith)
  · have : jsRound x ≤ ⌊(201 : ℚ)/2⌋ := by
      apply Int.floor_le_floor
      linarith
    simpa using this.trans (by norm_num)

/-- C1: for every history / position set (including null or empty, with
trade sizes nonnegative as the data client delivers them), the score is an
integer in `[0, 100]`, and on the full computation path it equals the
rounded weighted sum of the five sub-scores with weights
0.4 / 0.2 / 0.2 / 0.1 / 0.1. -/
theorem calculateWhaleScore_bounds (history : Option (List HistItem))
    (positions : Option (List Position))
    (hsz : ∀ t ∈ history.getD [], ∀ v, t.usdcSize = some v → 0 ≤ v) :
    0 ≤ calculateWhaleScore history positions ∧
    calculateWhaleScore history positions ≤ 100 ∧
    (∀ h, history = some h → (tradesOf h).length ≠ 0 →
      calculateWhaleScore history positions =
        jsRound (winRate positions * 0.4 +
          betSizeScore (totalVolumeOf (tradesOf h) / ((tradesOf h).length : ℚ)) * 0.2 +
          volumeScore (totalVolumeOf (tradesOf h)) * 0.2 +
          frequencyScore (tradesOf h).length * 0.1 +
          recentPerformance (tradesOf h) positions * 0.1)) := by
  have main : 0 ≤ calculateWhaleScore history positions ∧
      calculateWhaleScore history positions ≤ 100 := by
    cases history with
    | none => simp [calculateWhaleScore]
    | some h =>
      simp only [calculateWhaleScore]
      split
      · simp
      · split
        · simp
        · have hsub : ∀ t ∈ tradesOf h, ∀ v, t.usdcSize = some v → 0 ≤ v := by
            intro t ht v hv
            exact hsz t (by simpa using List.mem_of_mem_filter ht) v hv
          have hvol := totalVolumeOf_nonneg (tradesOf h) hsub
          have hb := rawScore_bounds (tradesOf h) positions hvol
          exact jsRound_bounds _ hb.1 hb.2
  refine ⟨main.1, main.2, ?_⟩
  intro h hh htr
  subst hh
  simp only [calculateWhaleScore]
  rw [if_neg, if_neg htr]
  · rfl
  · intro hlen
    apply htr
    unfold tradesOf
    simp [List.eq_nil_of_length_eq_zero hlen]

/-- Witness for C1 at a concrete one-trade history. -/
theorem calculateWhaleScore_bounds_witness :
    0 ≤ calculateWhaleScore (some [⟨"TRADE", some 6000, "c1"⟩]) none ∧
    calculateWhaleScore (some [⟨"TRADE", some 6000, "c1"⟩]) none ≤ 100 := by
  have h := calculateWhaleScore_bounds (some [⟨"TRADE", some 6000, "c1"⟩]) none
    (by intro t ht v hv; simp at ht; subst ht; simp at hv; simp [← hv])
  exact ⟨h.1, h.2.1⟩

/-- C6: a wallet with trade history but an empty set of resolved
(market-closed) positions gets the neutral winRate component 50, not 0. -/
theorem winRate_neutral_when_unresolved (h : List HistItem)
    (positions : Option (List Position))
    (htr : tradesOf h ≠ []) (hres : resolvedPositions positions = []) :
    winRate positions = 50 ∧ winRate positions ≠ 0 := by
  have : winRate positions = 50 := by
    unfold winRate
    dsimp only
    rw [hres]
    simp
  exact ⟨this, by rw [this]; norm_num⟩

/-- Witness for C6: one TRADE in history, one open (unresolved) position. -/
theorem winRate_neutral_when_unresolved_witness :
    winRate (some [⟨some ⟨false, "c1"⟩, some 12⟩]) = 50 ∧
    winRate (some [⟨some ⟨false, "c1"⟩, some 12⟩]) ≠ 0 :=
  winRate_neutral_when_unresolved [⟨"TRADE", some 6000, "c1"⟩]
    (some [⟨some ⟨false, "c1"⟩, some 12⟩]) (by decide) (by decide)

/-- Formula helper: with a non-empty trade list the recentPerformance
denominator is the number of the (up to) 10 most-recent trades. -/
theorem recentPerformance_eq_div (trades : List HistItem)
    (positions : Option (List Position)) (h : trades ≠ []) :
    recentPerformance trades positions =
      (recentWinsOf trades positions : ℚ) / ((trades.take 10).length : ℚ) * 100 := by
  have hlen : (recentPositionsOf trades positions).length = (trades.take 10).length := by
    unfold recentPositionsOf
    simp
  have hpos : 0 < (recentPositionsOf trades positions).length := by
    rw [hlen]
    simp only [List.length_take]
    have : 0 < trades.length := List.length_pos.mpr h
    omega
  unfold recentPerformance
  dsimp only
  rw [if_pos hpos, hlen]

/-- Helper: when no recent trade matches any position, recentPerformance
of a non-empty trade list is 0. -/
theorem recentPerformance_zero_of_no_match (trades : List HistItem)
    (positions : Option (List Position)) (h : trades ≠ [])
    (hnone : ∀ t ∈ trades.take 10, firstMatchedPosition positions t = none) :
    recentPerformance trades positions = 0 := by
  have hwins : recentWinsOf trades positions = 0 := by
    unfold recentWinsOf
    rw [List.length_eq_zero, List.filter_eq_nil_iff]
    intro a ha
    unfold recentPositionsOf at ha
    obtain ⟨t, ht, rfl⟩ := List.mem_map.mp ha
    rw [hnone t ht]
    simp
  rw [recentPerformance_eq_div trades positions h, hwins]
  norm_num

/-- C3 counterexample: a wallet with one TRADE in its history and no
position matching any recent trade has recentPerformance 0, not the
claimed 50. -/
theorem recentPerformance_no_match_counterexample :
    tradesOf [⟨"TRADE", some 6000, "c1"⟩] ≠ [] ∧
    (∀ t ∈ tradesOf [⟨"TRADE", some 6000, "c1"⟩],
      firstMatchedPosition (some []) t = none) ∧
    recentPerformance (tradesOf [⟨"TRADE", some 6000, "c1"⟩]) (some []) = 0 ∧
    recentPerformance (tradesOf [⟨"TRADE", some 6000, "c1"⟩]) (some []) ≠ 50 := by
  have h0 : recentPerformance (tradesOf [⟨"TRADE", some 6000, "c1"⟩]) (some []) = 0 :=
    recentPerformance_zero_of_no_match _ _ (by decide) (by decide)
  refine ⟨by decide, by decide, h0, by rw [h0]; norm_num⟩

/-- C3 amended: for a non-empty trade list, recentPerformance equals the
number of winning entries among the 10 most-recent trades divided by the
number of those trades (matched or not) times 100; in particular it equals
0, not 50, when none of those trades match any position. -/
theorem recentPerformance_formula (trades : List HistItem)
    (positions : Option (List Position)) (h : trades ≠ []) :
    recentPerformance trades positions =
      (recentWinsOf trades positions : ℚ) / ((trades.take 10).length : ℚ) * 100 ∧
    ((∀ t ∈ trades.take 10, firstMatchedPosition positions t = none) →
      recentPerformance trades positions = 0) :=
  ⟨recentPerformance_eq_div trades positions h,
   recentPerformance_zero_of_no_match trades positions h⟩

/-- Witness for the amended C3 theorem at a concrete one-trade history. -/
theorem recentPerformance_formula_witness :
    recentPerformance [⟨"TRADE", some 6000, "c1"⟩] (some []) =
      (recentWinsOf [⟨"TRADE", some 6000, "c1"⟩] (some []) : ℚ) /
        ((([⟨"TRADE", some 6000, "c1"⟩] : List HistItem).take 10).length : ℚ) * 100 ∧
    recentPerformance [⟨"TRADE", some 6000, "c1"⟩] (some []) = 0 := by
  have h := recentPerformance_formula [⟨"TRADE", some 6000, "c1"⟩] (some []) (by decide)
  exact ⟨h.1, h.2 (by decide)⟩

/-! ### Score cache and scanner (`scanWhaleActivity`, news-aggregator.js 610-701) -/

/-- The rounded metrics stored with a cached score. -/
structure Metrics where
  winRate : ℤ
  avgBetSize : ℤ
  totalVolume : ℤ
  totalTrades : ℕ
  recentPerformance : ℤ
deriving DecidableEq, Repr

/-- One entry of `this.whaleScores` (score, cache timestamp, metrics). -/
structure ScoreRecord where
  score : ℤ
  timestamp : ℤ
  metrics : Metrics
deriving DecidableEq, Repr

/-- The per-wallet score cache `this.whaleScores`. -/
abbrev Cache := List (String × ScoreRecord)

/-- The metrics block written into the cache on the full scoring path. -/
def metricsOf (trades : List HistItem) (positions : Option (List Position)) : Metrics :=
  { winRate := jsRound (winRate positions)
  , avgBetSize := jsRound (totalVolumeOf trades / (trades.length : ℚ))
  , totalVolume := jsRound (totalVolumeOf trades)
  , totalTrades := trades.length
  , recentPerformance := jsRound (recentPerformance trades positions) }

/-- The cache-miss body of `calculateWhaleScore`: early returns store
nothing; the full path stores a `ScoreRecord` keyed by the wallet. -/
def computeAndCache (cache : Cache) (now : ℤ) (wallet : String)
    (history : Option (List HistItem)) (positions : Option (List Position)) :
    ℤ × Cache :=
  match history with
  | none => (0, cache)
  | some h =>
    if h.length = 0 then (0, cache)
    else
      if (tradesOf h).length = 0 then (0, cache)
      else
        let score := jsRound (rawScore (tradesOf h) positions)
        (score, mapSet cache wallet ⟨score, now, metricsOf (tradesOf h) positions⟩)

/-- `calculateWhaleScore` with its cache: a fresh cached record (younger
than 5 minutes) short-circuits; otherwise the score is recomputed. -/
def calculateWhaleScoreCached (cache : Cache) (now : ℤ) (wallet : String)
    (history : Option (List HistItem)) (positions : Option (List Position)) :
    ℤ × Cache :=
  match mapGet cache wallet with
  | some r =>
      if now - r.timestamp < 300000 then (r.score, cache)
      else computeAndCache cache now wallet history positions
  | none => computeAndCache cache now wallet history positions

/-- Coherence: the cache-miss body returns the same score as the pure
`calculateWhaleScore`. -/
theorem computeAndCache_fst (cache : Cache) (now : ℤ) (wallet : String)
    (history : Option (List HistItem)) (positions : Option (List Position)) :
    (computeAndCache cache now wallet history positions).1 =
      calculateWhaleScore history positions := by
  cases history with
  | none => rfl
  | some h =>
    simp only [computeAndCache, calculateWhaleScore]
    split
    · rfl
    · split <;> rfl

/-- A market snapshot from the gamma API. -/
structure Market where
  condition_id : String
  question : String
  slug : String
  tags : List String
deriving DecidableEq, Repr

/-- One activity item of a market (`data-api /activity?market=`). -/
structure ActTrade where
  usdcSize : Option ℚ
  proxyWallet : String
  side : String
  price : ℚ
  outcome : String
  timestamp : ℤ
  transactionHash : String
deriving DecidableEq, Repr

/-- A whale event assembled by `scanWhaleActivity`. `metrics` is the
value of `this.whaleScores.get(bet.proxyWallet)?.metrics`: `none` models
the JS crash-on-undefined dereference. -/
structure WhaleEvent where
  market : String
  marketSlug : String
  conditionId : String
  category : String
  wallet : String
  betSize : ℚ
  side : String
  price : ℚ
  outcome : String
  timestamp : ℤ
  whaleScore : ℤ
  metrics : Option Metrics
  transactionHash : String
deriving DecidableEq, Repr

/-- The Market Data Client as consumed by the scanner: per-market
activity, per-wallet history and positions; `none` models a failed
fetch (the code treats it as no data). -/
structure DataClient where
  activity : String → Option (List ActTrade)
  history : String → Option (List HistItem)
  positions : String → Option (List Position)

/-- Body of the inner `for (const bet of whaleBets)` loop: score the
bettor, and append an event when `score >= minScore`. -/
def processBet (dc : DataClient) (now minScore : ℤ) (market : Market)
    (st : List WhaleEvent × Cache) (bet : ActTrade) : List WhaleEvent × Cache :=
  let res := calculateWhaleScoreCached st.2 now bet.proxyWallet
    (dc.history bet.proxyWallet) (dc.positions bet.proxyWallet)
  if minScore ≤ res.1 then
    (st.1 ++ [{ market := market.question
              , marketSlug := market.slug
              , conditionId := market.condition_id
              , category := market.tags.head?.getD "Other"
              , wallet := bet.proxyWallet
              , betSize := bet.usdcSize.getD 0
              , side := bet.side
              , price := bet.price
              , outcome := bet.outcome
              , timestamp := bet.timestamp
              , whaleScore := res.1
              , metrics := (mapGet res.2 bet.proxyWallet).map (fun r => r.metrics)
              , transactionHash := bet.transactionHash }], res.2)
  else (st.1, res.2)

/-- One market of the scan: skip on failed activity fetch, else keep the
bets of at least `MIN_WHALE_BET = 5000` USDC and process each. -/
def processMarket (dc : DataClient) (now minScore : ℤ)
    (st : List WhaleEvent × Cache) (market : Market) : List WhaleEvent × Cache :=
  match dc.activity market.condition_id with
  | none => st
  | some activity =>
    let whaleBets := activity.filter (fun t => decide (5000 ≤ t.usdcSize.getD 0))
    whaleBets.foldl (processBet dc now minScore market) st

/-- `scanWhaleActivity` over an already-assembled market list (the
batched loop over slices of 10 visits markets in list order, so it is the
plain fold), followed by the final sort by score descending. -/
def scanWhaleActivity (dc : DataClient) (markets : List Market)
    (minScore : ℤ) (cache : Cache) (now : ℤ) : List WhaleEvent × Cache :=
  let res := markets.foldl (processMarket dc now minScore) ([], cache)
  (res.1.mergeSort (fun a b => decide (b.whaleScore ≤ a.whaleScore)), res.2)

/-- Fold invariant helper. -/
theorem foldl_inv {β γ : Type} (Q : γ → Prop) (f : γ → β → γ) :
    ∀ (l : List β) (init : γ), Q init →
      (∀ st b, b ∈ l → Q st → Q (f st b)) → Q (l.foldl f init) := by
  intro l
  induction l with
  | nil =>
    intro init h _
    simpa using h
  | cons x t ih =>
    intro init h hstep
    simp only [List.foldl_cons]
    exact ih _ (hstep init x (by simp) h)
      (fun st b hb => hstep st b (by simp [hb]))

/-- `Map.set` then `Map.get` at the same key yields the written value. -/
theorem mapGet_mapSet {α : Type} (m : List (String × α)) (k : String) (v : α) :
    mapGet (mapSet m k v) k = some v := by
  unfold mapSet
  split
  · rename_i hany
    induction m with
    | nil => simp at hany
    | cons p t ih =>
      by_cases hp : (p.1 == k) = true
      · simp only [List.map_cons, if_pos hp]
        unfold mapGet
        rw [List.find?_cons_of_pos _ (by simp)]
        rfl
      · simp only [List.any_cons, Bool.or_eq_true, hp, false_or] at hany
        simp only [List.map_cons, if_neg hp]
        unfold mapGet at ih ⊢
        rw [List.find?_cons_of_neg _ (by simpa using hp)]
        exact ih (hany.resolve_left (by simp))
  · rename_i hany
    induction m with
    | nil =>
      unfold mapGet
      rw [List.nil_append, List.find?_cons_of_pos _ (by simp)]
      rfl
    | cons p t ih =>
      simp only [List.any_cons, Bool.or_eq_true, not_or] at hany
      unfold mapGet at ih ⊢
      simp only [List.cons_append]
      rw [List.find?_cons_of_neg _ (by simpa using hany.1)]
      exact ih (by simpa using hany.2)

/-- A nonzero cached-score result always leaves a record for the wallet
in the returned cache. -/
theorem calculateWhaleScoreCached_record (cache : Cache) (now : ℤ) (wallet : String)
    (history : Option (List HistItem)) (positions : Option (List Position))
    (h : (calculateWhaleScoreCached cache now wallet history positions).1 ≠ 0) :
    (mapGet (calculateWhaleScoreCached cache now wallet history positions).2 wallet).isSome := by
  have hcompute : (computeAndCache cache now wallet history positions).1 ≠ 0 →
      (mapGet (computeAndCache cache now wallet history positions).2 wallet).isSome := by
    intro hne
    cases history with
    | none => simp [computeAndCache] at hne
    | some hl =>
      by_cases h1 : hl.length = 0
      · simp [computeAndCache, h1] at hne
      · by_cases h2 : (tradesOf hl).length = 0
        · simp [computeAndCache, h1, h2] at hne
        · simp [computeAndCache, h1, h2, mapGet_mapSet]
  revert h
  unfold calculateWhaleScoreCached
  cases hc : mapGet cache wallet with
  | none => exact hcompute
  | some r =>
    by_cases ht : now - r.timestamp < 300000
    · simp only [ht, if_true]
      intro _
      simp [hc]
    · simp only [ht, if_false]
      exact hcompute

/-- Events already collected keep their bounds, and a processed bet of at
least 5000 USDC only adds an event when its score reaches `minScore`. -/
theorem processBet_keeps (dc : DataClient) (now minScore : ℤ) (market : Market)
    (st : List WhaleEvent × Cache) (bet : ActTrade)
    (hbet : (5000 : ℚ) ≤ bet.usdcSize.getD 0)
    (hst : ∀ e ∈ st.1, (5000 : ℚ) ≤ e.betSize ∧ minScore ≤ e.whaleScore) :
    ∀ e ∈ (processBet dc now minScore market st bet).1,
      (5000 : ℚ) ≤ e.betSize ∧ minScore ≤ e.whaleScore := by
  intro e he
  unfold processBet at he
  dsimp only at he
  split at he
  · rename_i hscore
    rcases List.mem_append.mp he with h1 | h2
    · exact hst e h1
    · cases List.mem_singleton.mp h2
      exact ⟨hbet, hscore⟩
  · exact hst e he

/-- `processMarket` preserves the betSize / score bounds of the collected
events: the activity filter admits only bets of at least 5000 USDC. -/
theorem processMarket_keeps (dc : DataClient) (now minScore : ℤ)
    (st : List WhaleEvent × Cache) (market : Market)
    (hst : ∀ e ∈ st.1, (5000 : ℚ) ≤ e.betSize ∧ minScore ≤ e.whaleScore) :
    ∀ e ∈ (processMarket dc now minScore st market).1,
      (5000 : ℚ) ≤ e.betSize ∧ minScore ≤ e.whaleScore := by
  unfold processMarket
  cases hact : dc.activity market.condition_id with
  | none => exact hst
  | some activity =>
    dsimp only
    refine foldl_inv
      (fun st2 : List WhaleEvent × Cache =>
        ∀ e ∈ st2.1, (5000 : ℚ) ≤ e.betSize ∧ minScore ≤ e.whaleScore)
      _ _ _ hst ?_
    intro st2 bet hbetmem hst2
    have hbet : (5000 : ℚ) ≤ bet.usdcSize.getD 0 := by
      have hm := List.mem_filter.mp hbetmem
      simpa using hm.2
    exact processBet_keeps dc now minScore market st2 bet hbet hst2

/-- C2: every event returned by a scan has `betSize ≥ 5000` (the fixed
whale threshold) and `whaleScore ≥ minScore`. -/
theorem scanWhaleActivity_filters (dc : DataClient) (markets : List Market)
    (minScore : ℤ) (cache : Cache) (now : ℤ) :
    ∀ e ∈ (scanWhaleActivity dc markets minScore cache now).1,
      (5000 : ℚ) ≤ e.betSize ∧ minScore ≤ e.whaleScore := by
  intro e he
  unfold scanWhaleActivity at he
  dsimp only at he
  rw [List.mem_mergeSort] at he
  have hq := foldl_inv
    (fun st : List WhaleEvent × Cache =>
      ∀ e' ∈ st.1, (5000 : ℚ) ≤ e'.betSize ∧ minScore ≤ e'.whaleScore)
    (processMarket dc now minScore) markets ([], cache)
    (by simp)
    (fun st m _ hst => processMarket_keeps dc now minScore st m hst)
  exact hq e he

/-- The one whale bet of the witness scan: 6000 USDC by wallet 0xA. -/
def betEx0 : ActTrade := ⟨some 6000, "0xA", "BUY", 1/2, "Yes", 1700000000, "0xhash"⟩

/-- The witness wallet's history. -/
def histEx : List HistItem := [⟨"TRADE", some 6000, "c1"⟩]

/-- Concrete data client for the scan witnesses: one market, one bet of
6000 USDC by wallet 0xA, whose history holds that single trade. -/
def dcEx : DataClient :=
  { activity := fun c => if c = "m1" then some [betEx0] else none
  , history := fun w => if w = "0xA" then some histEx else none
  , positions := fun _ => none }

/-- The single market of the witness scan. -/
def mEx : Market := ⟨"m1", "Will BTC hit 100k?", "btc-100k", []⟩

/-- The single event the witness scan returns (score 26 =
round(50·0.4 + 30·0.2 + 1.2·0.2 + 2·0.1 + 0·0.1)). -/
def evEx : WhaleEvent :=
  { market := "Will BTC hit 100k?"
  , marketSlug := "btc-100k"
  , conditionId := "m1"
  , category := "Other"
  , wallet := "0xA"
  , betSize := 6000
  , side := "BUY"
  , price := 1/2
  , outcome := "Yes"
  , timestamp := 1700000000
  , whaleScore := 26
  , metrics := some ⟨50, 6000, 6000, 1, 0⟩
  , transactionHash := "0xhash" }

/-- The score cache after the witness scan. -/
def cacheEx : Cache := [("0xA", ⟨26, 0, ⟨50, 6000, 6000, 1, 0⟩⟩)]

theorem jsRound_50 : jsRound 50 = 50 :=
  Int.floor_eq_iff.mpr ⟨by norm_num, by norm_num⟩

theorem jsRound_6000 : jsRound 6000 = 6000 :=
  Int.floor_eq_iff.mpr ⟨by norm_num, by norm_num⟩

theorem jsRound_0 : jsRound 0 = 0 :=
  Int.floor_eq_iff.mpr ⟨by norm_num, by norm_num⟩

theorem winRateEx : winRate none = 50 := by
  norm_num [winRate, resolvedPositions]

theorem totalVolumeOfEx : totalVolumeOf histEx = 6000 := by
  norm_num [totalVolumeOf, histEx]

theorem recentPerformanceEx : recentPerformance histEx none = 0 := by
  norm_num [recentPerformance, recentPositionsOf, recentWinsOf,
    firstMatchedPosition, histEx]

/-- The raw weighted sum of the witness wallet is 26.44. -/
theorem rawScoreEx : rawScore histEx none = 661/25 := by
  have h4 : (histEx.length : ℚ) = 1 := by norm_num [histEx]
  rw [rawScore, winRateEx, totalVolumeOfEx, recentPerformanceEx, h4]
  norm_num [betSizeScore, volumeScore, frequencyScore, histEx]

/-- The witness wallet scores round(26.44) = 26. -/
theorem scoreEx : jsRound (rawScore histEx none) = 26 := by
  rw [rawScoreEx, jsRound]
  exact Int.floor_eq_iff.mpr ⟨by norm_num, by norm_num⟩

theorem metricsOfEx : metricsOf histEx none = ⟨50, 6000, 6000, 1, 0⟩ := by
  unfold metricsOf
  rw [winRateEx, totalVolumeOfEx, recentPerformanceEx]
  have h4 : (histEx.length : ℚ) = 1 := by norm_num [histEx]
  rw [h4]
  have h5 : (6000 : ℚ) / 1 = 6000 := by norm_num
  rw [h5, jsRound_50, jsRound_6000, jsRound_0]
  rfl

theorem calcEx : calculateWhaleScoreCached [] 0 "0xA" (some histEx) none =
    (26, cacheEx) := by
  have htr : tradesOf histEx = histEx := rfl
  show computeAndCache [] 0 "0xA" (some histEx) none = (26, cacheEx)
  unfold computeAndCache
  dsimp only
  rw [if_neg (by norm_num [histEx]), if_neg (by rw [htr]; norm_num [histEx])]
  rw [htr, scoreEx, metricsOfEx]
  rfl

/-- Evaluation of the witness scan. -/
theorem scanExOutput : (scanWhaleActivity dcEx [mEx] 10 [] 0).1 = [evEx] := by
  have h1 : processMarket dcEx 0 10 ([], []) mEx =
      processBet dcEx 0 10 mEx ([], []) betEx0 := rfl
  have h2 : processBet dcEx 0 10 mEx ([], []) betEx0 = ([evEx], cacheEx) := by
    unfold processBet
    rw [show dcEx.history betEx0.proxyWallet = some histEx from rfl,
        show dcEx.positions betEx0.proxyWallet = none from rfl,
        show (([], []) : List WhaleEvent × Cache).2 = ([] : Cache) from rfl,
        show betEx0.proxyWallet = "0xA" from rfl, calcEx]
    rfl
  unfold scanWhaleActivity
  dsimp only
  rw [show ([mEx].foldl (processMarket dcEx 0 10) ([], [])) =
      processMarket dcEx 0 10 ([], []) mEx from rfl, h1, h2]
  simp

/-- Witness for C2: the concrete scan yields exactly `evEx`, whose bounds
follow from the scan theorem. -/
theorem scanWhaleActivity_filters_witness :
    (5000 : ℚ) ≤ evEx.betSize ∧ (10 : ℤ) ≤ evEx.whaleScore :=
  scanWhaleActivity_filters dcEx [mEx] 10 [] 0 evEx
    (by rw [scanExOutput]; exact List.mem_singleton.mpr rfl)

/-- Collected events keep a present metrics record, and with
`minScore ≥ 1` any newly added event reads the record the scorer just
cached (or the pre-existing one on a cache hit). -/
theorem processBet_metrics (dc : DataClient) (now minScore : ℤ) (market : Market)
    (st : List WhaleEvent × Cache) (bet : ActTrade) (hmin : (1 : ℤ) ≤ minScore)
    (hst : ∀ e ∈ st.1, e.metrics.isSome) :
    ∀ e ∈ (processBet dc now minScore market st bet).1, e.metrics.isSome := by
  intro e he
  unfold processBet at he
  dsimp only at he
  split at he
  · rename_i hscore
    rcases List.mem_append.mp he with h1 | h2
    · exact hst e h1
    · cases List.mem_singleton.mp h2
      have hne : (calculateWhaleScoreCached st.2 now bet.proxyWallet
          (dc.history bet.proxyWallet) (dc.positions bet.proxyWallet)).1 ≠ 0 := by
        omega
      have hrec := calculateWhaleScoreCached_record st.2 now bet.proxyWallet
        (dc.history bet.proxyWallet) (dc.positions bet.proxyWallet) hne
      simpa using hrec
  · exact hst e he

/-- `processMarket` keeps every collected event's metrics present when
`minScore ≥ 1`. -/
theorem processMarket_metrics (dc : DataClient) (now minScore : ℤ)
    (st : List WhaleEvent × Cache) (market : Market) (hmin : (1 : ℤ) ≤ minScore)
    (hst : ∀ e ∈ st.1, e.metrics.isSome) :
    ∀ e ∈ (processMarket dc now minScore st market).1, e.metrics.isSome := by
  unfold processMarket
  cases hact : dc.activity market.condition_id with
  | none => exact hst
  | some activity =>
    dsimp only
    refine foldl_inv
      (fun st2 : List WhaleEvent × Cache => ∀ e ∈ st2.1, e.metrics.isSome)
      _ _ _ hst ?_
    intro st2 bet _ hst2
    exact processBet_metrics dc now minScore market st2 bet hmin hst2

/-- C10: with `minScore ≥ 1`, every event the scan returns carries a
present metrics record: the `whaleScores.get` read at event construction
never dereferences an absent cache entry (a precondition that matters
because an empty-history wallet scores 0 without a cache write and would
pass the filter if `minScore ≤ 0`). -/
theorem scanWhaleActivity_metrics_present (dc : DataClient) (markets : List Market)
    (minScore : ℤ) (cache : Cache) (now : ℤ) (hmin : (1 : ℤ) ≤ minScore) :
    ∀ e ∈ (scanWhaleActivity dc markets minScore cache now).1, e.metrics.isSome := by
  intro e he
  unfold scanWhaleActivity at he
  dsimp only at he
  rw [List.mem_mergeSort] at he
  have hq := foldl_inv
    (fun st : List WhaleEvent × Cache => ∀ e' ∈ st.1, e'.metrics.isSome)
    (processMarket dc now minScore) markets ([], cache)
    (by simp)
    (fun st m _ hst => processMarket_metrics dc now minScore st m hmin hst)
  exact hq e he

/-- Witness for C10 at the concrete scan. -/
theorem scanWhaleActivity_metrics_present_witness : evEx.metrics.isSome :=
  scanWhaleActivity_metrics_present dcEx [mEx] 10 [] 0 (by norm_num) evEx
    (by rw [scanExOutput]; exact List.mem_singleton.mpr rfl)

/-! ### Tracker system (`polymarket-trackers.js`) -/

/-- The six tracker categories (`TRACKER_CATEGORIES`; every value is
`null`, so every category scans all markets and filters by keywords). -/
def TRACKER_CATEGORIES : List String :=
  ["politics", "crypto", "popculture", "sports", "business", "science"]

/-- `CATEGORY_KEYWORDS`: client-side keyword table per category. -/
def CATEGORY_KEYWORDS : List (String × List String) :=
  [ ("politics", ["trump", "biden", "election", "president", "congress", "senate",
      "house", "government", "policy", "vote", "republican", "democrat",
      "political", "minister", "prime minister", "war", "military"])
  , ("crypto", ["bitcoin", "ethereum", "crypto", "btc", "eth", "blockchain",
      "defi", "nft", "token", "coin", "solana", "binance", "coinbase"])
  , ("popculture", ["movie", "film", "music", "artist", "celebrity", "award",
      "oscar", "grammy", "netflix", "spotify", "album", "box office", "actor",
      "actress", "director"])
  , ("sports", ["nfl", "nba", "mlb", "nhl", "soccer", "football", "basketball",
      "baseball", "hockey", "championship", "super bowl", "world cup",
      "olympics", "team", "player", "game"])
  , ("business", ["stock", "market", "company", "ceo", "revenue", "profit",
      "earnings", "ipo", "acquisition", "merger", "valuation", "nasdaq", "dow",
      "sp500", "business", "corporate"])
  , ("science", ["science", "technology", "ai", "artificial intelligence",
      "research", "space", "nasa", "climate", "vaccine", "medical", "health",
      "innovation", "discovery", "tech company"]) ]

/-- Does `hay` start with `needle`? -/
def strStartsWith : List Char → List Char → Bool
  | _, [] => true
  | [], _ :: _ => false
  | h :: t, n :: ns => h == n && strStartsWith t ns

/-- JS `String.prototype.includes`: substring containment. -/
def strHasSub : List Char → List Char → Bool
  | [], n => n.isEmpty
  | h :: t, n => strStartsWith (h :: t) n || strHasSub t n

/-- `hay.includes(needle)` on Lean strings. -/
def jsIncludes (hay needle : String) : Bool := strHasSub hay.toList needle.toList

/-- `s.toLowerCase()`. -/
def jsToLower (s : String) : String := String.mk (s.toList.map Char.toLower)

/-- The keyword filter of `scanTracker`: applied exactly when the category
is one of the six known categories (its `TRACKER_CATEGORIES` entry is null
and it has keywords; both tables have the same key set). -/
def keywordFilter (category : String) (whales : List WhaleEvent) : List WhaleEvent :=
  match mapGet CATEGORY_KEYWORDS category with
  | some keywords => whales.filter (fun w =>
      keywords.any (fun k => jsIncludes (jsToLower w.market) (jsToLower k)))
  | none => whales

/-- Per-category aggregate stats. -/
structure Stats where
  count : ℕ
  avgScore : ℤ
  volume : ℚ
deriving DecidableEq, Repr

/-- `calculateStats`: count, rounded average score, total volume. -/
def calculateStats (whales : List WhaleEvent) : Stats :=
  if whales.length = 0 then ⟨0, 0, 0⟩
  else
    let totalScore := whales.foldl (fun acc w => acc + w.whaleScore) (0 : ℤ)
    let totalVolume := whales.foldl (fun acc w => acc + w.betSize) (0 : ℚ)
    ⟨whales.length, jsRound ((totalScore : ℚ) / (whales.length : ℚ)), totalVolume⟩

/-- The persisted localStorage record (`polymarket_tracker_state`). -/
structure SavedRecord where
  minScore : ℤ
  autoTrade : Bool
  activeCategories : List String
  lastUpdate : ℤ
deriving DecidableEq, Repr

/-- The mutable state of `PolymarketTrackerSystem`. `monitors` holds the
keys of the monitors map (interval ids are irrelevant); `feed` and `stats`
are the data rendered into the alert feed and the per-category panels. -/
structure TrackerSys where
  monitors : List String
  whaleData : List (String × List WhaleEvent)
  lastScan : List (String × ℤ)
  minScore : ℤ
  autoTrade : Bool
  activeCategories : List String
  storage : Option SavedRecord
  feed : List WhaleEvent
  stats : List (String × Stats)
deriving DecidableEq, Repr

/-- `saveState`: overwrite the stored record wholesale. -/
def saveState (now : ℤ) (s : TrackerSys) : TrackerSys :=
  { s with storage := some ⟨s.minScore, s.autoTrade, s.monitors, now⟩ }

/-- `loadState`: read `(minScore, autoTrade, activeCategories)` with JS
`||` defaults (`state.minScore || 75`, `state.autoTrade || false`,
`state.activeCategories || []`; a falsy stored minScore — 0 — becomes 75,
a stored array is always truthy). -/
def loadState (storage : Option SavedRecord) : ℤ × Bool × List String :=
  match storage with
  | none => (75, false, [])
  | some r => (if r.minScore = 0 then 75 else r.minScore, r.autoTrade, r.activeCategories)

/-- The constructor: defaults, then `loadState`. -/
def constructTracker (storage : Option SavedRecord) : TrackerSys :=
  { monitors := []
  , whaleData := []
  , lastScan := []
  , minScore := (loadState storage).1
  , autoTrade := (loadState storage).2.1
  , activeCategories := (loadState storage).2.2
  , storage := storage
  , feed := []
  , stats := [] }

/-- The JS sort comparator of `updateWhaleAlertFeed` as a binary `le`:
`a` may precede `b` iff `b.whaleScore - a.whaleScore ≤ 0`, ties broken by
`b.timestamp - a.timestamp ≤ 0`. -/
def whaleCmp (a b : WhaleEvent) : Bool :=
  decide (b.whaleScore < a.whaleScore) ||
    (decide (a.whaleScore = b.whaleScore) && decide (b.timestamp ≤ a.timestamp))

/-- The pooling loop of `updateWhaleAlertFeed`: all categories' events,
each stamped with its tracker category. -/
def poolWhales (whaleData : List (String × List WhaleEvent)) : List WhaleEvent :=
  whaleData.foldl (fun acc p => acc ++ p.2.map (fun w => { w with category := p.1 })) []

/-- `updateWhaleAlertFeed`: pool, sort by score then timestamp (both
descending, stable), render the first 20. -/
def updateWhaleAlertFeed (whaleData : List (String × List WhaleEvent)) : List WhaleEvent :=
  ((poolWhales whaleData).mergeSort whaleCmp).take 20

/-- Observable side effects of the tracker operations. -/
inductive Effect where
  | fetch (category : String)
  | timer (category : String)
deriving DecidableEq, Repr

/-- The pre-await part of `scanTracker`: throttle check against the
last-scan timestamp, then record the scan start time. `none` means the
cycle is skipped. -/
def scanBegin (now : ℤ) (s : TrackerSys) (c : String) : Option TrackerSys :=
  if now - ((mapGet s.lastScan c).getD 0) < 5000 then none
  else some { s with lastScan := mapSet s.lastScan c now }

/-- The post-await part of `scanTracker`: on a failed fetch the catch
block only logs; on success the category's whale data, stats and the
global feed are replaced — with no re-check of the monitors map. -/
def scanApply (s : TrackerSys) (c : String) (fetched : Option (List WhaleEvent)) :
    TrackerSys :=
  match fetched with
  | none => s
  | some whales =>
    let ws := keywordFilter c whales
    let s1 := { s with whaleData := mapSet s.whaleData c ws }
    let s2 := { s1 with stats := mapSet s1.stats c (calculateStats ws) }
    { s2 with feed := updateWhaleAlertFeed s2.whaleData }

/-- `scanTracker` run to completion (begin, fetch, apply). -/
def scanTracker (fetched : Option (List WhaleEvent)) (now : ℤ) (s : TrackerSys)
    (c : String) : TrackerSys × List Effect :=
  match scanBegin now s c with
  | none => (s, [])
  | some s1 => (scanApply s1 c fetched, [Effect.fetch c])

/-- `startTracker`: early return when the category is already in the
monitors map; otherwise scan once, create the recurring timer, persist. -/
def startTracker (fetched : Option (List WhaleEvent)) (now : ℤ) (s : TrackerSys)
    (c : String) : TrackerSys × List Effect :=
  if s.monitors.contains c then (s, [])
  else
    let r := scanTracker fetched now s c
    let s2 := { r.1 with monitors := r.1.monitors ++ [c] }
    (saveState now s2, r.2 ++ [Effect.timer c])

/-- `stopTracker`: no-op when not running; otherwise cancel the timer,
drop the category's whale data, zero its stats, persist. -/
def stopTracker (now : ℤ) (s : TrackerSys) (c : String) : TrackerSys :=
  if s.monitors.contains c then
    saveState now
      { s with monitors := s.monitors.filter (fun x => x != c)
             , whaleData := mapDel s.whaleData c
             , stats := mapSet s.stats c ⟨0, 0, 0⟩ }
  else s

/-- States reachable from construction through the tracker operations. -/
inductive Reachable : TrackerSys → Prop where
  | init (storage : Option SavedRecord) : Reachable (constructTracker storage)
  | start (s : TrackerSys) (fetched : Option (List WhaleEvent)) (now : ℤ) (c : String) :
      Reachable s → Reachable (startTracker fetched now s c).1
  | stop (s : TrackerSys) (now : ℤ) (c : String) :
      Reachable s → Reachable (stopTracker now s c)
  | scan (s : TrackerSys) (fetched : Option (List WhaleEvent)) (now : ℤ) (c : String) :
      Reachable s → Reachable (scanTracker fetched now s c).1

/-! ### Field-preservation lemmas -/

theorem scanApply_lastScan (s : TrackerSys) (c : String)
    (f : Option (List WhaleEvent)) : (scanApply s c f).lastScan = s.lastScan := by
  cases f <;> rfl

theorem scanApply_minScore (s : TrackerSys) (c : String)
    (f : Option (List WhaleEvent)) : (scanApply s c f).minScore = s.minScore := by
  cases f <;> rfl

theorem scanBegin_minScore (now : ℤ) (s : TrackerSys) (c : String) (s1 : TrackerSys)
    (h : scanBegin now s c = some s1) : s1.minScore = s.minScore := by
  unfold scanBegin at h
  split at h
  · exact Option.noConfusion h
  · injection h with h2
    rw [← h2]

theorem scanTracker_minScore (f : Option (List WhaleEvent)) (now : ℤ)
    (s : TrackerSys) (c : String) : (scanTracker f now s c).1.minScore = s.minScore := by
  unfold scanTracker
  cases hb : scanBegin now s c with
  | none => rfl
  | some s1 =>
    dsimp only
    rw [scanApply_minScore]
    exact scanBegin_minScore now s c s1 hb

theorem startTracker_minScore (f : Option (List WhaleEvent)) (now : ℤ)
    (s : TrackerSys) (c : String) : (startTracker f now s c).1.minScore = s.minScore := by
  unfold startTracker
  split
  · rfl
  · exact scanTracker_minScore f now s c

theorem stopTracker_minScore (now : ℤ) (s : TrackerSys) (c : String) :
    (stopTracker now s c).minScore = s.minScore := by
  unfold stopTracker
  split <;> rfl

/-- Invariant: any state reachable through the tracker operations has a
truthy (nonzero) `minScore`, because the constructor default is 75 and
`loadState` maps a falsy stored value back to 75. -/
theorem reachable_minScore_ne_zero (s : TrackerSys) (h : Reachable s) :
    s.minScore ≠ 0 := by
  induction h with
  | init storage =>
    show (loadState storage).1 ≠ 0
    cases storage with
    | none => norm_num [loadState]
    | some r =>
      unfold loadState
      dsimp only
      split
      · norm_num
      · assumption
  | start s f now c _ ih =>
    rw [startTracker_minScore]
    exact ih
  | stop s now c _ ih =>
    rw [stopTracker_minScore]
    exact ih
  | scan s f now c _ ih =>
    rw [scanTracker_minScore]
    exact ih

/-- C5: for every reachable tracker state, saving the persisted record
and reloading it reproduces `minScore`, `autoTrade` and the
`activeCategories` set (order-independent equality with the monitors'
key set that was saved). -/
theorem saveState_loadState_roundTrip (s : TrackerSys) (now : ℤ) (hs : Reachable s) :
    (loadState (saveState now s).storage).1 = s.minScore ∧
    (loadState (saveState now s).storage).2.1 = s.autoTrade ∧
    (∀ c, c ∈ (loadState (saveState now s).storage).2.2 ↔ c ∈ s.monitors) := by
  have hmin := reachable_minScore_ne_zero s hs
  refine ⟨?_, rfl, fun c => Iff.rfl⟩
  show (if s.minScore = 0 then 75 else s.minScore) = s.minScore
  rw [if_neg hmin]

/-- Witness for C5 at the freshly constructed (empty-storage) state. -/
theorem saveState_loadState_roundTrip_witness :
    (loadState (saveState 1000 (constructTracker none)).storage).1 =
      (constructTracker none).minScore ∧
    (loadState (saveState 1000 (constructTracker none)).storage).2.1 =
      (constructTracker none).autoTrade ∧
    (∀ c, c ∈ (loadState (saveState 1000 (constructTracker none)).storage).2.2 ↔
      c ∈ (constructTracker none).monitors) :=
  saveState_loadState_roundTrip (constructTracker none) 1000 (Reachable.init none)

/-- C8: starting an already-running category is a pure no-op — the state
is returned unchanged and no scan, timer creation or save occurs. -/
theorem startTracker_idempotent (fetched : Option (List WhaleEvent)) (now : ℤ)
    (s : TrackerSys) (c : String) (h : s.monitors.contains c) :
    startTracker fetched now s c = (s, []) := by
  unfold startTracker
  rw [if_pos h]

/-- Witness for C8: a state whose monitors map already holds politics. -/
theorem startTracker_idempotent_witness :
    startTracker none 0 { constructTracker none with monitors := ["politics"] }
      "politics" =
      ({ constructTracker none with monitors := ["politics"] }, []) :=
  startTracker_idempotent none 0
    { constructTracker none with monitors := ["politics"] } "politics" (by decide)

/-- C9: a first (unthrottled) scan performs exactly one upstream fetch;
a second scan within 5 seconds is throttled — it performs no fetch and
leaves the entire tracker state (whale data, stats, feed, last-scan
timestamp) unchanged. -/
theorem scanTracker_throttle (fetched1 fetched2 : Option (List WhaleEvent))
    (now1 now2 : ℤ) (s : TrackerSys) (c : String)
    (h1 : 5000 ≤ now1 - ((mapGet s.lastScan c).getD 0))
    (h2 : now2 - now1 < 5000) :
    (scanTracker fetched1 now1 s c).2 = [Effect.fetch c] ∧
    scanTracker fetched2 now2 (scanTracker fetched1 now1 s c).1 c =
      ((scanTracker fetched1 now1 s c).1, []) := by
  have hbegin1 : scanBegin now1 s c =
      some { s with lastScan := mapSet s.lastScan c now1 } := by
    unfold scanBegin
    rw [if_neg (by omega)]
  have hr1 : scanTracker fetched1 now1 s c =
      (scanApply { s with lastScan := mapSet s.lastScan c now1 } c fetched1,
        [Effect.fetch c]) := by
    unfold scanTracker
    rw [hbegin1]
  have hlast : (scanTracker fetched1 now1 s c).1.lastScan = mapSet s.lastScan c now1 := by
    rw [hr1]
    exact scanApply_lastScan _ _ _
  refine ⟨by rw [hr1], ?_⟩
  have hthrottle : scanBegin now2 (scanTracker fetched1 now1 s c).1 c = none := by
    unfold scanBegin
    rw [hlast, mapGet_mapSet, Option.getD_some, if_pos h2]
  show (match scanBegin now2 (scanTracker fetched1 now1 s c).1 c with
    | none => ((scanTracker fetched1 now1 s c).1, [])
    | some s1 => (scanApply s1 c fetched2, [Effect.fetch c])) =
    ((scanTracker fetched1 now1 s c).1, [])
  rw [hthrottle]

/-- Witness for C9: fresh state, first scan at t=10000, second at t=12000. -/
theorem scanTracker_throttle_witness :
    (scanTracker (some []) 10000 (constructTracker none) "politics").2 =
      [Effect.fetch "politics"] ∧
    scanTracker none 12000
        (scanTracker (some []) 10000 (constructTracker none) "politics").1 "politics" =
      ((scanTracker (some []) 10000 (constructTracker none) "politics").1, []) :=
  scanTracker_throttle (some []) none 10000 12000 (constructTracker none) "politics"
    (by decide) (by decide)

/-! ### C4: stop versus an in-flight scan -/

/-- A politics-keyword whale event used in the stop/scan race scenario. -/
def wPol : WhaleEvent :=
  { market := "Trump wins"
  , marketSlug := "s"
  , conditionId := "c9"
  , category := "Other"
  , wallet := "0xB"
  , betSize := 6000
  , side := "BUY"
  , price := 1
  , outcome := "Yes"
  , timestamp := 5
  , whaleScore := 80
  , metrics := none
  , transactionHash := "0xt" }

/-- A state with the politics tracker running. -/
def sRun : TrackerSys := { constructTracker none with monitors := ["politics"] }

/-- The state after the in-flight scan's throttle check and timestamp
write (the code before the `await`). -/
def sBeginEx : TrackerSys := (scanBegin 10000 sRun "politics").getD sRun

/-- The state after `stop("politics")` lands while the scan is in flight. -/
def sStoppedEx : TrackerSys := stopTracker 10001 sBeginEx "politics"

/-- C4 counterexample: the scan began on a running politics tracker
(`scanBegin` returned a state), stop removed the monitor and cleared the
category's whale data — yet when the in-flight scan's results land,
`scanApply` still writes the stopped category's whale data: no active-flag
re-check discards them. -/
theorem stop_discards_inflight_counterexample :
    scanBegin 10000 sRun "politics" = some sBeginEx ∧
    sStoppedEx.monitors.contains "politics" = false ∧
    mapGet sStoppedEx.whaleData "politics" = none ∧
    mapGet (scanApply sStoppedEx "politics" (some [wPol])).whaleData "politics" =
      some [wPol] := by
  refine ⟨by decide, by decide, by decide, ?_⟩
  show mapGet (mapSet sStoppedEx.whaleData "politics"
    (keywordFilter "politics" [wPol])) "politics" = some [wPol]
  rw [mapGet_mapSet]
  decide

/-- C4 amended: `stop(category)` cancels the recurring timer and clears
the category's data, but an in-flight scan's results are not discarded:
`scanTracker` performs no re-check of the monitors map after the await,
so when the scan lands it writes the stopped category's whale data (the
keyword-filtered fetch result) regardless of the active flag. -/
theorem scanApply_ignores_stop (s : TrackerSys) (c : String)
    (whales : List WhaleEvent) (hstopped : s.monitors.contains c = false) :
    mapGet (scanApply s c (some whales)).whaleData c =
      some (keywordFilter c whales) := by
  show mapGet (mapSet s.whaleData c (keywordFilter c whales)) c = _
  exact mapGet_mapSet _ _ _

/-- Witness for the amended C4 theorem in the concrete race scenario. -/
theorem scanApply_ignores_stop_witness :
    mapGet (scanApply sStoppedEx "politics" (some [wPol])).whaleData "politics" =
      some (keywordFilter "politics" [wPol]) :=
  scanApply_ignores_stop sStoppedEx "politics" [wPol] (by decide)

/-! ### C7: the merged whale alert feed -/

theorem whaleCmp_trans (a b c : WhaleEvent) (h1 : whaleCmp a b) (h2 : whaleCmp b c) :
    whaleCmp a c := by
  simp only [whaleCmp, Bool.or_eq_true, Bool.and_eq_true, decide_eq_true_eq] at h1 h2 ⊢
  omega

theorem whaleCmp_total (a b : WhaleEvent) : whaleCmp a b || whaleCmp b a := by
  simp only [whaleCmp, Bool.or_eq_true, Bool.and_eq_true, decide_eq_true_eq]
  omega

/-- C7: the recomputed global alert feed shows at most 20 events, every
shown event comes from the pooled per-category whale data, the feed is
sorted by whaleScore descending with ties broken by timestamp descending,
and when the pool holds at most 20 events the feed is exactly the sorted
pool (a permutation of it). -/
theorem updateWhaleAlertFeed_spec (wd : List (String × List WhaleEvent)) :
    (updateWhaleAlertFeed wd).length ≤ 20 ∧
    (∀ e ∈ updateWhaleAlertFeed wd, e ∈ poolWhales wd) ∧
    List.Pairwise (fun a b => b.whaleScore < a.whaleScore ∨
      (a.whaleScore = b.whaleScore ∧ b.timestamp ≤ a.timestamp))
      (updateWhaleAlertFeed wd) ∧
    ((poolWhales wd).length ≤ 20 →
      (updateWhaleAlertFeed wd).Perm (poolWhales wd)) := by
  refine ⟨?_, ?_, ?_, ?_⟩
  · exact List.length_take_le _ _
  · intro e he
    unfold updateWhaleAlertFeed at he
    exact List.mem_mergeSort.mp (List.take_subset _ _ he)
  · unfold updateWhaleAlertFeed
    have hs := List.sorted_mergeSort whaleCmp_trans whaleCmp_total (poolWhales wd)
    have hs2 := hs.imp (fun hab => by
      simpa [whaleCmp, Bool.or_eq_true, Bool.and_eq_true, decide_eq_true_eq] using hab)
    exact hs2.sublist (List.take_sublist _ _)
  · intro hlen
    unfold updateWhaleAlertFeed
    rw [List.take_of_length_le (by rw [List.length_mergeSort]; exact hlen)]
    exact List.mergeSort_perm (poolWhales wd) whaleCmp

/-- Concrete whale data for the C7 witness: one politics event. -/
def wdEx : List (String × List WhaleEvent) := [("politics", [wPol])]

/-- `wPol` as it appears in the pooled feed (category stamped). -/
def wPolP : WhaleEvent := { wPol with category := "politics" }

/-- Witness for C7 on a one-event pool. -/
theorem updateWhaleAlertFeed_spec_witness :
    (updateWhaleAlertFeed wdEx).length ≤ 20 ∧
    wPolP ∈ poolWhales wdEx ∧
    (updateWhaleAlertFeed wdEx).Perm (poolWhales wdEx) := by
  have hpool : poolWhales wdEx = [wPolP] := by decide
  refine ⟨(updateWhaleAlertFeed_spec wdEx).1, ?_, ?_⟩
  · exact (updateWhaleAlertFeed_spec wdEx).2.1 wPolP
      (by unfold updateWhaleAlertFeed; rw [hpool]; simp)
  · exact (updateWhaleAlertFeed_spec wdEx).2.2.2 (by rw [hpool]; norm_num)
